import Mathlib

/-!
Verification of the capture-to-spectrum pipeline of the audio-visualizer
repository (src/audio.rs, src/main.rs), shallowly embedded in Lean 4.

The embedding follows the source:
* the SPSC sample ring buffer (`ringbuf::HeapRb` used through
  `try_push`/`try_pop`/`occupied_len`) is a fixed-capacity FIFO list;
* the result channel (`tokio::sync::mpsc`, receiver side) is a FIFO list of
  pending frames, drained by `get_fft_data`;
* the spawned FFT task body (`AudioProcessor::new`) is the cycle function
  `analyzerCycle`, sample collection is `collectSamples`;
* windowing and the forward FFT are modelled over ℝ/ℂ (real numbers stand
  for the f32 values of the source; the forward FFT is the discrete Fourier
  transform that `rustfft`'s `plan_fft_forward` computes);
* the hardware input callback (`AudioProcessor::build_stream`) is
  `inputCallback`, with `chunksOf` for `slice::chunks`;
* device switching (`App::switch_audio_source` in main.rs) is
  `switchAudioSource`, instrumented with an event trace so the
  "at most one live pipeline" invariant can be stated.
-/

namespace AudioViz

/-- The SPSC sample ring buffer: `HeapRb::<f32>::new(buffer_size)` in
`AudioProcessor::new`. `capacity` is fixed at construction; `data` lists the
occupied slots in FIFO order (front = oldest). -/
structure RingBuffer (α : Type) where
  capacity : Nat
  data : List α
deriving Repr, DecidableEq

/-- Construction: `HeapRb::new(cap)` yields an empty buffer of capacity `cap`
(in the source, `cap = sample_rate as usize`, one second of audio). -/
def RingBuffer.new (α : Type) (cap : Nat) : RingBuffer α := ⟨cap, []⟩

/-- `Observer::occupied_len`: number of occupied slots. -/
def occupiedLen {α : Type} (rb : RingBuffer α) : Nat := rb.data.length

/-- `Producer::try_push`: appends to the back when a free slot exists, and
otherwise fails, returning the buffer unchanged (the incoming sample is
discarded, nothing is evicted). The `Bool` is success. -/
def tryPush {α : Type} (rb : RingBuffer α) (x : α) : Bool × RingBuffer α :=
  if occupiedLen rb < rb.capacity then (true, ⟨rb.capacity, rb.data ++ [x]⟩)
  else (false, rb)

/-- `Consumer::try_pop`: removes and returns the oldest sample, or `none` on
an empty buffer. -/
def tryPop {α : Type} (rb : RingBuffer α) : Option α × RingBuffer α :=
  match rb.data with
  | [] => (none, rb)
  | x :: rest => (some x, ⟨rb.capacity, rest⟩)

/-- A sequence of pushes with no intervening pops (each push keeps whatever
`try_push` left behind). -/
def pushAll {α : Type} (rb : RingBuffer α) (xs : List α) : RingBuffer α :=
  xs.foldl (fun b x => (tryPush b x).2) rb

theorem tryPush_capacity {α : Type} (rb : RingBuffer α) (x : α) :
    (tryPush rb x).2.capacity = rb.capacity := by
  unfold tryPush
  split <;> rfl

theorem occupiedLen_tryPush_le {α : Type} (rb : RingBuffer α) (x : α)
    (h : occupiedLen rb ≤ rb.capacity) :
    occupiedLen (tryPush rb x).2 ≤ rb.capacity := by
  unfold tryPush occupiedLen at *
  split
  · simp only [occupiedLen, List.length_append, List.length_singleton]
    omega
  · exact h

theorem pushAll_capacity {α : Type} (rb : RingBuffer α) (xs : List α) :
    (pushAll rb xs).capacity = rb.capacity := by
  induction xs generalizing rb with
  | nil => rfl
  | cons x xs ih =>
      simpa [pushAll] using (ih (tryPush rb x).2).trans (tryPush_capacity rb x)

theorem occupiedLen_pushAll_le {α : Type} (rb : RingBuffer α) (xs : List α)
    (h : occupiedLen rb ≤ rb.capacity) :
    occupiedLen (pushAll rb xs) ≤ rb.capacity := by
  induction xs generalizing rb with
  | nil => exact h
  | cons x xs ih =>
      have h1 := occupiedLen_tryPush_le rb x h
      have h2 := ih (tryPush rb x).2
      rw [tryPush_capacity rb x] at h2
      simpa [pushAll] using h2 h1

/-- C1: for every sequence of pushes with no pops, starting from a freshly
constructed buffer of any capacity, the occupied length never exceeds the
capacity; a push against a full buffer fails and leaves the buffer unchanged
(the incoming sample is discarded, the existing contents are preserved); and
concretely, pushing `1..15` into a capacity-10 buffer leaves exactly the ten
oldest values `1..10` in FIFO order. -/
theorem ring_buffer_capacity_invariant (cap : Nat) (xs : List Nat)
    (full : RingBuffer Nat) (y : Nat) (hfull : occupiedLen full = full.capacity) :
    occupiedLen (pushAll (RingBuffer.new Nat cap) xs) ≤ cap
    ∧ tryPush full y = (false, full)
    ∧ pushAll (RingBuffer.new Nat 10) (List.range' 1 15) =
        ⟨10, List.range' 1 10⟩ := by
  refine ⟨?_, ?_, ?_⟩
  · have h0 : occupiedLen (RingBuffer.new Nat cap) ≤ (RingBuffer.new Nat cap).capacity := by
      simp [RingBuffer.new, occupiedLen]
    simpa [RingBuffer.new] using occupiedLen_pushAll_le (RingBuffer.new Nat cap) xs h0
  · unfold tryPush
    rw [hfull]
    simp
  · decide

/-- Witness for C1 at concrete inputs: capacity 10, pushes `1..15`, then one
more push `99` against the now-full buffer. -/
theorem ring_buffer_capacity_invariant_witness :
    occupiedLen (pushAll (RingBuffer.new Nat 10) (List.range' 1 15)) ≤ 10
    ∧ tryPush ⟨10, List.range' 1 10⟩ 99 = (false, ⟨10, List.range' 1 10⟩)
    ∧ pushAll (RingBuffer.new Nat 10) (List.range' 1 15) =
        ⟨10, List.range' 1 10⟩ :=
  ring_buffer_capacity_invariant 10 (List.range' 1 15) ⟨10, List.range' 1 10⟩ 99 (by decide)

/-- The receiving half of the result channel (`mpsc::Receiver<Vec<f32>>`),
as the FIFO list of pending frames, front = oldest. `try_recv` pops the
front, or fails when nothing is pending. -/
def tryRecv {α : Type} (rx : List α) : Option α × List α :=
  match rx with
  | [] => (none, [])
  | x :: rest => (some x, rest)

/-- The drain loop of `AudioProcessor::get_fft_data`:
`while let Ok(data) = self.fft_rx.try_recv() { latest = Some(data) }`. -/
def drainLoop {α : Type} : List α → Option α → Option α × List α
  | [], latest => (latest, [])
  | x :: rest, _ => drainLoop rest (some x)

/-- `AudioProcessor::get_fft_data`: drain the channel fully, return the last
frame received (or `none`), together with the drained receiver state. -/
def getFftData {α : Type} (rx : List α) : Option α × List α :=
  drainLoop rx none

theorem drainLoop_eq {α : Type} (rx : List α) (latest : Option α) :
    drainLoop rx latest = (rx.getLast?.elim latest some, []) := by
  induction rx generalizing latest with
  | nil => rfl
  | cons x rest ih =>
      cases rest with
      | nil => simp [drainLoop]
      | cons y t => simpa [drainLoop, List.getLast?_cons_cons] using ih (some x)

theorem getFftData_eq {α : Type} (rx : List α) :
    getFftData rx = (rx.getLast?, []) := by
  cases h : rx.getLast? <;> simp [getFftData, drainLoop_eq, h]

/-- C2: one poll of `get_fft_data` is non-blocking, drains the channel
fully (the receiver is left with no pending frame), and returns exactly the
most recent pending frame — the last of the `N` published frames — or `none`
when nothing is pending; a second poll with no new publication in between
returns `none`. -/
theorem poll_latest_frame_drains (frames : List (List Nat)) :
    getFftData frames = (frames.getLast?, [])
    ∧ getFftData (getFftData frames).2 = (none, []) := by
  refine ⟨getFftData_eq frames, ?_⟩
  rw [getFftData_eq frames]
  rfl

/-- Sample collection of the spawned FFT task:
`for sample in samples.iter_mut().take(fft_size) { *sample = consumer.try_pop().unwrap_or(0.0) }`.
Performs exactly `n` pops; a failed pop substitutes the default `d` and is
counted. Returns (collected samples, remaining buffer, failed-pop count). -/
def collectSamples {α : Type} (d : α) : Nat → List α → List α × List α × Nat
  | 0, buf => ([], buf, 0)
  | n + 1, [] =>
      let r := collectSamples d n []
      (d :: r.1, r.2.1, r.2.2 + 1)
  | n + 1, x :: rest =>
      let r := collectSamples d n rest
      (x :: r.1, r.2.1, r.2.2)

theorem collectSamples_of_le {α : Type} (d : α) (n : Nat) (buf : List α)
    (h : n ≤ buf.length) :
    collectSamples d n buf = (buf.take n, buf.drop n, 0) := by
  induction n generalizing buf with
  | zero => simp [collectSamples]
  | succ n ih =>
      cases buf with
      | nil => simp at h
      | cons x rest =>
          have : n ≤ rest.length := by simpa using h
          simp [collectSamples, ih rest this]

/-- C10: whenever the occupied length is at least `WINDOW_SIZE` when checked
(and the Analyzer, being the sole consumer, is the only one popping), all
`WINDOW_SIZE` pops succeed: the failed-pop count is 0, so the
`unwrap_or(0.0)` default branch is never taken and no zero sample is
injected — the collected window is exactly the oldest 1024 buffered
samples. -/
theorem collect_window_no_default (buf : List Nat) (h : 1024 ≤ buf.length) :
    collectSamples 0 1024 buf = (buf.take 1024, buf.drop 1024, 0) :=
  collectSamples_of_le 0 1024 buf h

/-- Witness for C10 at the concrete buffer holding `0..1024`. -/
theorem collect_window_no_default_witness :
    1024 ≤ (List.range 1024).length
    ∧ collectSamples 0 1024 (List.range 1024) =
        ((List.range 1024).take 1024, (List.range 1024).drop 1024, 0) :=
  ⟨by simp, collect_window_no_default (List.range 1024) (by simp)⟩

/-- WINDOW_SIZE: `let fft_size = 1024;` in the spawned FFT task. -/
def fftSize : Nat := 1024

/-- `mpsc::Sender::send(..).await` on the result channel: enqueues the frame
(order-preserving) and succeeds whenever the receiving half is still alive
(a full bounded channel makes the sender suspend, not fail); it returns an
error exactly when the receiver has been dropped. -/
def mpscSend {β : Type} (receiverAlive : Bool) (chan : List β) (frame : β) :
    Option (List β) :=
  if receiverAlive then some (chan ++ [frame]) else none

/-- One iteration of the spawned FFT task's `loop` in `AudioProcessor::new`:
check `consumer.occupied_len() >= fft_size`; if so, pop a window with
`collectSamples`, process it (windowing + FFT + magnitudes, abstracted here
as `process`), and send the frame, breaking out of the loop when the send
fails. Returns the new (ring buffer, channel) state and whether the loop
breaks. -/
def analyzerCycle {α β : Type} (process : List α → β) (d : α)
    (receiverAlive : Bool) (st : List α × List β) : (List α × List β) × Bool :=
  if fftSize ≤ st.1.length then
    let r := collectSamples d fftSize st.1
    match mpscSend receiverAlive st.2 (process r.1) with
    | some chan => ((r.2.1, chan), false)
    | none => ((r.2.1, st.2), true)
  else (st, false)

/-- C3: in every Analyzer cycle (receiver alive), if the occupied length is
below WINDOW_SIZE nothing is popped and nothing is published — the state is
unchanged and the loop continues; otherwise exactly the oldest WINDOW_SIZE
samples are popped in FIFO order and exactly one frame, computed from them,
is appended to the channel. Previously published frames are untouched, so
production order is preserved across cycles. -/
theorem analyzer_cycle_windowing {α β : Type} (process : List α → β) (d : α)
    (buf : List α) (chan : List β) :
    analyzerCycle process d true (buf, chan) =
      (if buf.length < fftSize then ((buf, chan), false)
       else ((buf.drop fftSize, chan ++ [process (buf.take fftSize)]), false))
    ∧ ((analyzerCycle process d true (buf, chan)).1.2).take chan.length = chan := by
  have hmain : analyzerCycle process d true (buf, chan) =
      (if buf.length < fftSize then ((buf, chan), false)
       else ((buf.drop fftSize, chan ++ [process (buf.take fftSize)]), false)) := by
    by_cases h : fftSize ≤ buf.length
    · have hnot : ¬ buf.length < fftSize := by omega
      simp [analyzerCycle, h, hnot, collectSamples_of_le d fftSize buf h, mpscSend]
    · have hlt : buf.length < fftSize := by omega
      simp [analyzerCycle, h, hlt]
  refine ⟨hmain, ?_⟩
  rw [hmain]
  by_cases h : buf.length < fftSize
  · simp [h]
  · simp [h, List.take_append]

/-- C6: the Analyzer loop breaks in a cycle exactly when a publish was
attempted (a full window was available) and the send failed; and a send
fails exactly when the receiving half of the channel has been dropped.
There is no other exit from the loop: with the receiver alive the cycle
never breaks, whatever the state. -/
theorem analyzer_exit_iff_receiver_dropped {α β : Type} (process : List α → β)
    (d : α) (receiverAlive : Bool) (buf : List α) (chan : List β) :
    ((analyzerCycle process d receiverAlive (buf, chan)).2 = true
      ↔ (fftSize ≤ buf.length ∧ receiverAlive = false))
    ∧ (∀ (c : List β) (fr : β), mpscSend receiverAlive c fr = none ↔ receiverAlive = false)
    ∧ (analyzerCycle process d true (buf, chan)).2 = false := by
  refine ⟨?_, ?_, ?_⟩
  · unfold analyzerCycle
    by_cases h : fftSize ≤ buf.length
    · cases receiverAlive <;> simp [h, mpscSend]
    · simp [h]
  · intro c fr
    cases receiverAlive <;> simp [mpscSend]
  · unfold analyzerCycle
    by_cases h : fftSize ≤ buf.length <;> simp [h, mpscSend]

/-- `data.chunks(c)` on a slice: successive sub-slices of length `c`, the
last one possibly shorter. (Rust panics on `c = 0`; here that case returns
`[]` and is never used, since the negotiated channel count is ≥ 1.) -/
def chunksOf {α : Type} : Nat → List α → List (List α)
  | 0, _ => []
  | _ + 1, [] => []
  | c + 1, x :: rest => (x :: rest).take (c + 1) :: chunksOf (c + 1) (rest.drop c)
termination_by _ l => l.length
decreasing_by
  simp only [List.length_drop, List.length_cons]
  omega

theorem chunksOf_nil {α : Type} (c : Nat) : chunksOf c ([] : List α) = [] := by
  cases c <;> simp [chunksOf]

theorem chunksOf_step {α : Type} (c : Nat) (data : List α) (hc : 0 < c)
    (hne : data ≠ []) :
    chunksOf c data = data.take c :: chunksOf c (data.drop c) := by
  obtain ⟨m, rfl⟩ : ∃ m, c = m + 1 := ⟨c - 1, by omega⟩
  cases data with
  | nil => exact absurd rfl hne
  | cons x rest => simp [chunksOf, List.drop_succ_cons]

/-- The mono sample the callback computes for one chunk:
`chunk.iter().map(|&s| s.into()).sum::<f32>() / channels as f32`. -/
def monoSample {α : Type} [DivisionRing α] (channels : Nat) (chunk : List α) : α :=
  chunk.sum / (channels : α)

/-- Arithmetic mean of a list, written from the spec's words ("the
arithmetic mean across channels") to compare with `monoSample`. -/
def arithMean {α : Type} [DivisionRing α] (l : List α) : α :=
  l.sum / (l.length : α)

/-- The hardware input callback of `AudioProcessor::build_stream`: for each
chunk of `channels` interleaved samples, compute the mono sample and attempt
exactly one non-blocking `try_push` into the ring buffer, keeping whatever
the push left behind (drop-on-full). -/
def inputCallback {α : Type} [DivisionRing α] (channels : Nat) (data : List α)
    (rb : RingBuffer α) : RingBuffer α :=
  (chunksOf channels data).foldl (fun b ch => (tryPush b (monoSample channels ch)).2) rb

theorem chunksOf_full (c : Nat) (hc : 0 < c) {α : Type} :
    ∀ (k : Nat) (data : List α), data.length = k * c →
      (∀ ch ∈ chunksOf c data, ch.length = c) ∧ (chunksOf c data).length = k := by
  intro k
  induction k with
  | zero =>
      intro data hlen
      have : data = [] := List.length_eq_zero.mp (by simpa using hlen)
      subst this
      simp [chunksOf_nil]
  | succ k ih =>
      intro data hlen
      have hlen1 : data.length = k * c + c := by
        rw [hlen]
        ring
      have hcle : c ≤ data.length := by omega
      have hne : data ≠ [] := by
        intro h
        rw [h] at hlen1
        simp only [List.length_nil] at hlen1
        omega
      have hdrop : (data.drop c).length = k * c := by
        simp only [List.length_drop, hlen1]
        omega
      have ihd := ih (data.drop c) hdrop
      rw [chunksOf_step c data hc hne]
      constructor
      · intro ch hch
        rcases List.mem_cons.mp hch with h | h
        · rw [h, List.length_take]
          omega
        · exact ihd.1 ch h
      · simp [List.length_cons, ihd.2]

/-- C5: for a callback buffer of `k` complete channel-frames with negotiated
channel count `c ≥ 1`: every chunk has exactly `c` samples and its mono
sample equals the arithmetic mean of those `c` samples; exactly one mono
sample is produced per channel-frame; and the callback performs exactly one
non-blocking `try_push` per mono sample (so, by the `try_push` semantics, a
sample arriving at a full buffer is silently dropped, with no blocking or
retrying). -/
theorem callback_downmix_mean {α : Type} [DivisionRing α] (c k : Nat)
    (data : List α) (rb : RingBuffer α) (hc : 0 < c) (hlen : data.length = k * c) :
    (∀ ch ∈ chunksOf c data, ch.length = c ∧ monoSample c ch = arithMean ch)
    ∧ (chunksOf c data).length = k
    ∧ inputCallback c data rb = pushAll rb ((chunksOf c data).map (monoSample c)) := by
  obtain ⟨hall, hcount⟩ := chunksOf_full c hc k data hlen
  refine ⟨?_, hcount, ?_⟩
  · intro ch hch
    have hchlen := hall ch hch
    refine ⟨hchlen, ?_⟩
    rw [arithMean, monoSample, hchlen]
  · rw [inputCallback, pushAll, List.foldl_map]

/-- Witness for C5: two channel-frames of two channels each, `[1, 3, 5, 7]`,
into a capacity-3 buffer over ℚ. -/
theorem callback_downmix_mean_witness :
    0 < 2 ∧ List.length ([1, 3, 5, 7] : List ℚ) = 2 * 2
    ∧ ((∀ ch ∈ chunksOf 2 ([1, 3, 5, 7] : List ℚ),
          ch.length = 2 ∧ monoSample 2 ch = arithMean ch)
       ∧ (chunksOf 2 ([1, 3, 5, 7] : List ℚ)).length = 2
       ∧ inputCallback 2 ([1, 3, 5, 7] : List ℚ) (RingBuffer.new ℚ 3) =
           pushAll (RingBuffer.new ℚ 3)
             ((chunksOf 2 ([1, 3, 5, 7] : List ℚ)).map (monoSample 2))) :=
  ⟨by omega, by rfl,
    callback_downmix_mean 2 2 ([1, 3, 5, 7] : List ℚ) (RingBuffer.new ℚ 3)
      (by omega) (by rfl)⟩

/-- The Hann window coefficient computed in the FFT task:
`0.5 * (1.0 - ((2.0 * PI * i as f32) / (fft_size - 1) as f32).cos())`.
The f32 arithmetic of the source is modelled over ℝ. -/
noncomputable def hannCoeff (i : Nat) : ℝ :=
  0.5 * (1 - Real.cos ((2 * Real.pi * (i : ℝ)) / ((fftSize : ℝ) - 1)))

/-- The windowed complex buffer handed to the FFT:
`*sample *= window; buffer[i] = Complex::new(*sample, 0.0)`. -/
noncomputable def windowedBuffer (samples : Fin fftSize → ℝ) : Fin fftSize → ℂ :=
  fun i => ((samples i * hannCoeff (i : ℕ) : ℝ) : ℂ)

/-- The forward FFT computed by `fft.process(&mut buffer)` for a plan from
`plan_fft_forward`: the discrete Fourier transform
`X_k = Σ_n x_n · exp(-2πi·k·n/N)` with `N = fftSize`. -/
noncomputable def fftForward (buf : Fin fftSize → ℂ) : Fin fftSize → ℂ :=
  fun k => ∑ n : Fin fftSize,
    buf n * Complex.exp (-(2 * Real.pi * Complex.I) * ((k : ℕ) : ℂ)
      * ((n : ℕ) : ℂ) / (fftSize : ℂ))

/-- The published frame:
`buffer.iter().take(fft_size / 2).map(|c| c.norm()).collect()` — keep only
the first half of the FFT output and take Euclidean norms. -/
noncomputable def spectralFrame (samples : Fin fftSize → ℝ) : List ℝ :=
  ((List.finRange fftSize).take (fftSize / 2)).map
    (fun n => Complex.abs (fftForward (windowedBuffer samples) n))

/-- C8: the window coefficient at index `i` is
`0.5 * (1 - cos(2π·i/(WINDOW_SIZE-1)))`; it is exactly 0 at index 0 and at
index 1023, and within `10⁻⁵` of 1 at the midpoint index 512. -/
theorem hann_window_shape :
    (∀ i : Nat, hannCoeff i = 0.5 * (1 - Real.cos (2 * Real.pi * (i : ℝ) / 1023)))
    ∧ hannCoeff 0 = 0
    ∧ hannCoeff (fftSize - 1) = 0
    ∧ |hannCoeff (fftSize / 2) - 1| < 1 / 100000 := by
  refine ⟨?_, ?_, ?_, ?_⟩
  · intro i
    norm_num [hannCoeff, fftSize]
  · norm_num [hannCoeff, Real.cos_zero]
  · unfold hannCoeff fftSize
    norm_num
  · unfold hannCoeff fftSize
    norm_num
    rw [show (2 * Real.pi * (512:ℝ)) / 1023 = Real.pi / 1023 + Real.pi by ring,
      Real.cos_add_pi]
    have h1 : Real.cos (Real.pi / 1023) ≤ 1 := Real.cos_le_one _
    have h2 : 1 - (Real.pi / 1023) ^ 2 / 2 ≤ Real.cos (Real.pi / 1023) :=
      Real.one_sub_sq_div_two_le_cos
    have h3 : (Real.pi / 1023) ^ 2 ≤ 16 / 1046529 := by
      have hy0 : (0:ℝ) ≤ Real.pi / 1023 := by positivity
      have hy4 : Real.pi / 1023 ≤ 4 / 1023 := by
        have := Real.pi_le_four
        linarith
      calc (Real.pi / 1023) ^ 2 ≤ (4 / 1023 : ℝ) ^ 2 := pow_le_pow_left₀ hy0 hy4 2
        _ = 16 / 1046529 := by norm_num
    rw [abs_lt]
    constructor <;> linarith

/-- C4: every published frame is an ordered sequence of exactly
`WINDOW_SIZE/2 = 512` values; each value is non-negative; the value at
index `k < 512` is the Euclidean norm of the `k`-th complex output of the
forward FFT of the Hann-windowed window; and there is no entry at any index
`≥ 512` — the second half of the FFT output is discarded. -/
theorem spectral_frame_magnitudes (samples : Fin fftSize → ℝ) (k : Fin fftSize)
    (hk : (k : ℕ) < fftSize / 2) :
    (spectralFrame samples).length = fftSize / 2
    ∧ (∀ x ∈ spectralFrame samples, 0 ≤ x)
    ∧ (spectralFrame samples)[(k : ℕ)]? =
        some (Complex.abs (fftForward (windowedBuffer samples) k))
    ∧ (∀ j : Nat, fftSize / 2 ≤ j → (spectralFrame samples)[j]? = none) := by
  have hlen : (spectralFrame samples).length = fftSize / 2 := by
    norm_num [spectralFrame, List.length_take, List.length_finRange, fftSize]
  refine ⟨hlen, ?_, ?_, ?_⟩
  · intro x hx
    simp only [spectralFrame, List.mem_map] at hx
    obtain ⟨n, _, rfl⟩ := hx
    exact Complex.abs.nonneg _
  · rw [spectralFrame, List.getElem?_map, List.getElem?_take_of_lt hk]
    have hkn : (k : ℕ) < (List.finRange fftSize).length := by
      rw [List.length_finRange]
      exact k.isLt
    rw [List.getElem?_eq_getElem hkn, List.getElem_finRange]
    rfl
  · intro j hj
    exact List.getElem?_eq_none (by rw [hlen]; exact hj)

/-- Witness for C4 at the all-zero window and bin `k = 0`. -/
theorem spectral_frame_magnitudes_witness :
    (((⟨0, by norm_num [fftSize]⟩ : Fin fftSize) : ℕ) < fftSize / 2)
    ∧ ((spectralFrame (fun _ => 0)).length = fftSize / 2
       ∧ (∀ x ∈ spectralFrame (fun _ => 0), 0 ≤ x)
       ∧ (spectralFrame (fun _ => 0))[((⟨0, by norm_num [fftSize]⟩ : Fin fftSize) : ℕ)]? =
           some (Complex.abs
             (fftForward (windowedBuffer (fun _ => 0)) ⟨0, by norm_num [fftSize]⟩))
       ∧ (∀ j : Nat, fftSize / 2 ≤ j → (spectralFrame (fun _ => 0))[j]? = none)) :=
  ⟨by norm_num [fftSize],
    spectral_frame_magnitudes (fun _ => 0) ⟨0, by norm_num [fftSize]⟩
      (by norm_num [fftSize])⟩

/-- A live Capture Pipeline + Analyzer pair (`AudioProcessor`): the
negotiated sample rate stored at construction and the receiving half of the
result channel. -/
structure Processor where
  sampleRate : Nat
  fftRx : List (List ℝ)

/-- `AudioProcessor::new` on success: stores the negotiated
`config.sample_rate().0`; the receiver starts with no pending frame. -/
def mkProcessor (negotiatedRate : Nat) : Processor := ⟨negotiatedRate, []⟩

/-- The sample rate the renderer reports (main.rs `render_visualizer`):
`self.audio_processor.as_ref().map(|p| p.sample_rate()).unwrap_or(44100)` —
the negotiated rate when a pipeline is active, 44100 as the defined
fallback when none is. -/
def reportedSampleRate (proc : Option Processor) : Nat :=
  (proc.map Processor.sampleRate).getD 44100

/-- Frame polling at the application level: with no processor there is
nothing to poll and the result is `none`; otherwise the processor's
`get_fft_data` drain runs. -/
def appPollFrame (proc : Option Processor) : Option (List ℝ) :=
  match proc with
  | none => none
  | some p => (getFftData p.fftRx).1

/-- C9: `sample_rate()` returns the rate negotiated at construction
whenever a pipeline is active, and the defined fallback 44100 when none is;
in the no-audio state (processor absent) the reported rate is that fallback
and polling for a frame always returns `none`. -/
theorem sample_rate_and_no_audio (p : Processor) (r : Nat) :
    reportedSampleRate (some p) = p.sampleRate
    ∧ (mkProcessor r).sampleRate = r
    ∧ reportedSampleRate none = 44100
    ∧ appPollFrame none = none :=
  ⟨rfl, rfl, rfl, rfl⟩

/-- The externally observable events of `App::switch_audio_source`, in
program order: dropping a processor (which releases its hardware stream)
and attempting to construct one for a device index. -/
inductive SwitchEvent where
  | teardown (device : Nat)
  | construct (device : Nat) (ok : Bool)
deriving Repr, DecidableEq

/-- The audio-relevant state of `App`: how many input devices are
available, the current device index, and the device index held by the live
processor, if any. -/
structure AppAudio where
  deviceCount : Nat
  currentIndex : Nat
  processor : Option Nat
deriving Repr, DecidableEq

/-- `App::switch_audio_source`, with `ok i` standing for whether
`AudioProcessor::new` succeeds for device `i`: return early when no devices
exist; otherwise advance to the next index, drop the old processor first
(`self.audio_processor = None`), construct for the new device; on failure
restore the index and reconstruct for the previous device as rollback; if
that also fails, stay in the no-audio state. Also returns the event trace. -/
def switchAudioSource (ok : Nat → Bool) (app : AppAudio) :
    AppAudio × List SwitchEvent :=
  if app.deviceCount = 0 then (app, [])
  else
    let oldIndex := app.currentIndex
    let newIndex := (app.currentIndex + 1) % app.deviceCount
    let dropEvents : List SwitchEvent :=
      match app.processor with
      | some d => [.teardown d]
      | none => []
    if ok newIndex then
      (⟨app.deviceCount, newIndex, some newIndex⟩,
        dropEvents ++ [.construct newIndex true])
    else if ok oldIndex then
      (⟨app.deviceCount, oldIndex, some oldIndex⟩,
        dropEvents ++ [.construct newIndex false, .construct oldIndex true])
    else
      (⟨app.deviceCount, oldIndex, none⟩,
        dropEvents ++ [.construct newIndex false, .construct oldIndex false])

/-- Number of pipelines holding an input device after a sequence of
switch events, starting from `init` live pipelines. -/
def livePipelines (init : Nat) (evs : List SwitchEvent) : Nat :=
  evs.foldl
    (fun n e =>
      match e with
      | .teardown _ => n - 1
      | .construct _ ok => if ok then n + 1 else n)
    init

/-- C7: switching devices first tears down the old pipeline — when one
exists, the very first event is its teardown, so the old stream is released
before any construction — and along the whole event trace at most one
pipeline holds a device at any instant; on construction success the new
device's pipeline is installed; if construction fails, the previous
device's pipeline is reconstructed as rollback; and if rollback also fails
the state is the defined no-audio state (processor absent) — the operation
is total, no error propagates. -/
theorem switch_device_rollback (ok : Nat → Bool) (app : AppAudio)
    (hne : app.deviceCount ≠ 0) :
    (∀ d, app.processor = some d →
      (switchAudioSource ok app).2.head? = some (.teardown d))
    ∧ (∀ n, livePipelines (if app.processor.isSome then 1 else 0)
          ((switchAudioSource ok app).2.take n) ≤ 1)
    ∧ (ok ((app.currentIndex + 1) % app.deviceCount) = true →
        (switchAudioSource ok app).1 =
          ⟨app.deviceCount, (app.currentIndex + 1) % app.deviceCount,
            some ((app.currentIndex + 1) % app.deviceCount)⟩)
    ∧ (ok ((app.currentIndex + 1) % app.deviceCount) = false →
        ok app.currentIndex = true →
        (switchAudioSource ok app).1 =
          ⟨app.deviceCount, app.currentIndex, some app.currentIndex⟩)
    ∧ (ok ((app.currentIndex + 1) % app.deviceCount) = false →
        ok app.currentIndex = false →
        (switchAudioSource ok app).1 =
          ⟨app.deviceCount, app.currentIndex, none⟩) := by
  obtain ⟨cnt, idx, proc⟩ := app
  simp only at hne ⊢
  refine ⟨?_, ?_, ?_, ?_, ?_⟩
  · intro d hd
    subst hd
    unfold switchAudioSource
    simp only [hne, if_false]
    by_cases h1 : ok ((idx + 1) % cnt) <;>
      by_cases h2 : ok idx <;>
        simp [h1, h2]
  · intro n
    unfold switchAudioSource
    simp only [hne, if_false]
    rcases proc with _ | d <;>
      by_cases h1 : ok ((idx + 1) % cnt) <;>
        by_cases h2 : ok idx <;>
          rcases n with _ | _ | _ | m <;>
            simp [h1, h2, livePipelines, List.take]
  · intro h1
    unfold switchAudioSource
    simp [hne, h1]
  · intro h1 h2
    unfold switchAudioSource
    simp [hne, h1, h2]
  · intro h1 h2
    unfold switchAudioSource
    simp [hne, h1, h2]

/-- Witness for C7: two devices, current index 0 holding a live pipeline;
construction succeeds only for device 0, so the switch to device 1 fails
and rolls back to device 0. -/
theorem switch_device_rollback_witness :
    (AppAudio.mk 2 0 (some 0)).deviceCount ≠ 0
    ∧ ((∀ d, (AppAudio.mk 2 0 (some 0)).processor = some d →
          (switchAudioSource (fun i => decide (i = 0)) (AppAudio.mk 2 0 (some 0))).2.head? =
            some (.teardown d))
       ∧ (∀ n, livePipelines
            (if (AppAudio.mk 2 0 (some 0)).processor.isSome then 1 else 0)
            ((switchAudioSource (fun i => decide (i = 0)) (AppAudio.mk 2 0 (some 0))).2.take n) ≤ 1)
       ∧ ((fun i => decide (i = 0)) (((AppAudio.mk 2 0 (some 0)).currentIndex + 1) %
            (AppAudio.mk 2 0 (some 0)).deviceCount) = true →
          (switchAudioSource (fun i => decide (i = 0)) (AppAudio.mk 2 0 (some 0))).1 =
            ⟨(AppAudio.mk 2 0 (some 0)).deviceCount,
              ((AppAudio.mk 2 0 (some 0)).currentIndex + 1) % (AppAudio.mk 2 0 (some 0)).deviceCount,
              some (((AppAudio.mk 2 0 (some 0)).currentIndex + 1) % (AppAudio.mk 2 0 (some 0)).deviceCount)⟩)
       ∧ ((fun i => decide (i = 0)) (((AppAudio.mk 2 0 (some 0)).currentIndex + 1) %
            (AppAudio.mk 2 0 (some 0)).deviceCount) = false →
          (fun i => decide (i = 0)) (AppAudio.mk 2 0 (some 0)).currentIndex = true →
          (switchAudioSource (fun i => decide (i = 0)) (AppAudio.mk 2 0 (some 0))).1 =
            ⟨(AppAudio.mk 2 0 (some 0)).deviceCount, (AppAudio.mk 2 0 (some 0)).currentIndex,
              some (AppAudio.mk 2 0 (some 0)).currentIndex⟩)
       ∧ ((fun i => decide (i = 0)) (((AppAudio.mk 2 0 (some 0)).currentIndex + 1) %
            (AppAudio.mk 2 0 (some 0)).deviceCount) = false →
          (fun i => decide (i = 0)) (AppAudio.mk 2 0 (some 0)).currentIndex = false →
          (switchAudioSource (fun i => decide (i = 0)) (AppAudio.mk 2 0 (some 0))).1 =
            ⟨(AppAudio.mk 2 0 (some 0)).deviceCount, (AppAudio.mk 2 0 (some 0)).currentIndex, none⟩)) :=
  ⟨by decide, switch_device_rollback (fun i => decide (i = 0)) (AppAudio.mk 2 0 (some 0)) (by decide)⟩

end AudioViz
